import Mathlib

/-!
Verification of the request-interceptor pipeline of `tokencheck-subscriptions`.

Rust strings are modelled as byte sequences (`Bytes := List Nat`, UTF-8 bytes),
machine integers as `Nat`/`Int`.  External collaborators (the JSON library,
the Postgres pool, the argon2 verifier, the JWT validator) are passed as
explicit function parameters; the Redis counter store is modelled as an
explicit state with a per-call-site fault oracle.
-/

set_option maxHeartbeats 1000000
set_option maxRecDepth 100000

/-- Byte strings: Rust `String` / `&[u8]` as a list of bytes. -/
abbrev Bytes := List Nat

/-- UTF-8 bytes of an ASCII Lean string literal. -/
def str2bytes (s : String) : Bytes := s.data.map Char.toNat

/-- Decimal rendering of a natural number (Rust `Display` for unsigned ints). -/
def natRepr (n : Nat) : Bytes :=
  if h : n < 10 then [48 + n] else natRepr (n / 10) ++ [48 + n % 10]
  decreasing_by exact Nat.div_lt_self (by omega) (by omega)

/-- Decimal rendering of an integer (Rust `Display` for signed ints). -/
def intRepr (i : Int) : Bytes :=
  if i < 0 then 45 :: natRepr (-i).toNat else natRepr i.toNat

/-- `uuid::Uuid`: a 128-bit value.  (Theorems that need the bound carry
`val < 2^128` as a hypothesis.) -/
structure Uuid where
  val : Nat
deriving DecidableEq, Repr

/-- Lowercase hex digit as an ASCII byte (serde_json / uuid rendering). -/
def hexDigitByte (n : Nat) : Nat := if n < 10 then 48 + n else 87 + n

/-- ASCII byte to hex digit value (accepting the lowercase and uppercase
digits the uuid / JSON parsers accept). -/
def hexVal (b : Nat) : Option Nat :=
  if 48 ≤ b ∧ b ≤ 57 then some (b - 48)
  else if 97 ≤ b ∧ b ≤ 102 then some (b - 87)
  else if 65 ≤ b ∧ b ≤ 70 then some (b - 55)
  else none

/-- Fixed-width big-endian hex rendering of the low `w` nibbles of `v`. -/
def hexN : Nat → Nat → Bytes
  | 0, _ => []
  | w + 1, v => hexDigitByte (v / 16 ^ w % 16) :: hexN w v

/-- Parse exactly `w` hex digits, returning the value and the rest. -/
def parseHexN : Nat → Bytes → Option (Nat × Bytes)
  | 0, rest => some (0, rest)
  | _ + 1, [] => none
  | w + 1, b :: rest => do
    let d ← hexVal b
    let (v, r) ← parseHexN w rest
    pure (d * 16 ^ w + v, r)

/-- Hyphenated lowercase rendering of a `Uuid` (its `Display` and serde
serialization): `8-4-4-4-12` hex digits. -/
def uuidBytes (u : Uuid) : Bytes :=
  hexN 8 (u.val / 16 ^ 24) ++ [45] ++ hexN 4 (u.val / 16 ^ 20) ++ [45] ++
  hexN 4 (u.val / 16 ^ 16) ++ [45] ++ hexN 4 (u.val / 16 ^ 12) ++ [45] ++
  hexN 12 u.val

/-- Parse a hyphenated `8-4-4-4-12` uuid, returning it and the rest. -/
def parseUuid (s : Bytes) : Option (Uuid × Bytes) := do
  let (n1, r) ← parseHexN 8 s
  match r with
  | 45 :: r => do
    let (n2, r) ← parseHexN 4 r
    match r with
    | 45 :: r => do
      let (n3, r) ← parseHexN 4 r
      match r with
      | 45 :: r => do
        let (n4, r) ← parseHexN 4 r
        match r with
        | 45 :: r => do
          let (n5, r) ← parseHexN 12 r
          pure (⟨n1 * 16 ^ 24 + n2 * 16 ^ 20 + n3 * 16 ^ 16 + n4 * 16 ^ 12 + n5⟩, r)
        | _ => none
      | _ => none
    | _ => none
  | _ => none

/-- `common::error::AppError` (the variants reachable in the modelled code;
library error payloads are carried as their rendered message bytes). -/
inductive AppError where
  | Database (msg : Bytes)
  | JWT (msg : Bytes)
  | Unauthorized (msg : Bytes)
  | Forbidden (msg : Bytes)
  | NotFound (msg : Bytes)
  | BadRequest (msg : Bytes)
  | TooManyRequests (msg : Bytes)
  | Internal (msg : Bytes)
deriving DecidableEq, Repr

/-- HTTP status of `AppError::to_http_response` (src/common/src/error.rs). -/
def AppError.statusOf : AppError → Nat
  | .Database _ => 500
  | .JWT _ => 500
  | .Unauthorized _ => 401
  | .Forbidden _ => 403
  | .NotFound _ => 404
  | .BadRequest _ => 400
  | .TooManyRequests _ => 429
  | .Internal _ => 500

section Base64

/-- Sextet value to base64 alphabet byte (RFC 4648 standard alphabet). -/
def b64char (n : Nat) : Nat :=
  if n < 26 then 65 + n
  else if n < 52 then 97 + (n - 26)
  else if n < 62 then 48 + (n - 52)
  else if n = 62 then 43
  else 47

/-- Base64 alphabet byte to sextet value (`=` is not in the alphabet). -/
def b64val (b : Nat) : Option Nat :=
  if 65 ≤ b ∧ b ≤ 90 then some (b - 65)
  else if 97 ≤ b ∧ b ≤ 122 then some (b - 97 + 26)
  else if 48 ≤ b ∧ b ≤ 57 then some (b - 48 + 52)
  else if b = 43 then some 62
  else if b = 47 then some 63
  else none

/-- `base64::engine::general_purpose::STANDARD.encode`: 3 bytes to 4 chars,
with canonical `=` padding. -/
def b64encode : Bytes → Bytes
  | [] => []
  | [a] => [b64char (a / 4), b64char (a % 4 * 16), 61, 61]
  | [a, b] => [b64char (a / 4), b64char (a % 4 * 16 + b / 16), b64char (b % 16 * 4), 61]
  | a :: b :: c :: rest =>
    b64char (a / 4) :: b64char (a % 4 * 16 + b / 16) ::
    b64char (b % 16 * 4 + c / 64) :: b64char (c % 64) :: b64encode rest

/-- Decode the final 4-character chunk, honouring canonical padding and
rejecting set trailing bits (the standard engine's strict behaviour). -/
def b64decodeLast (a b c d : Nat) : Option Bytes :=
  if c = 61 then
    if d = 61 then do
      let x ← b64val a
      let y ← b64val b
      if y % 16 = 0 then pure [x * 4 + y / 16] else none
    else none
  else if d = 61 then do
    let x ← b64val a
    let y ← b64val b
    let z ← b64val c
    if z % 4 = 0 then pure [x * 4 + y / 16, y % 16 * 16 + z / 4] else none
  else do
    let x ← b64val a
    let y ← b64val b
    let z ← b64val c
    let w ← b64val d
    pure [x * 4 + y / 16, y % 16 * 16 + z / 4, z % 4 * 64 + w]

/-- `base64::engine::general_purpose::STANDARD.decode`: requires a length
that is a multiple of 4, alphabet symbols, canonical padding and zero
trailing bits; returns `none` (a decode error) otherwise. -/
def b64decode : Bytes → Option Bytes
  | [] => some []
  | [a, b, c, d] => b64decodeLast a b c d
  | a :: b :: c :: d :: rest => do
    let x ← b64val a
    let y ← b64val b
    let z ← b64val c
    let w ← b64val d
    let t ← b64decode rest
    pure ((x * 4 + y / 16) :: (y % 16 * 16 + z / 4) :: (z % 4 * 64 + w) :: t)
  | _ => none

theorem b64val_b64char : ∀ n < 64, b64val (b64char n) = some n := by decide

theorem b64char_ne_61 : ∀ n < 64, b64char n ≠ 61 := by decide

theorem b64encode_ne_nil (a : Nat) (l : Bytes) : b64encode (a :: l) ≠ [] := by
  match l with
  | [] => simp [b64encode]
  | [_] => simp [b64encode]
  | _ :: _ :: _ => simp [b64encode]

/-- Round trip: strict decoding inverts encoding on byte inputs. -/
theorem b64decode_b64encode : ∀ l : Bytes, (∀ x ∈ l, x < 256) →
    b64decode (b64encode l) = some l := by
  intro l
  induction l using b64encode.induct with
  | case1 => intro _; rfl
  | case2 a =>
    intro h
    have ha : a < 256 := h a (by simp)
    have h1 : a / 4 < 64 := by omega
    have h2 : a % 4 * 16 < 64 := by omega
    simp only [b64encode, b64decode, b64decodeLast,
      b64val_b64char _ h1, b64val_b64char _ h2]
    have : a % 4 * 16 % 16 = 0 := by omega
    simp [this, Option.bind]
    omega
  | case3 a b =>
    intro h
    have ha : a < 256 := h a (by simp)
    have hb : b < 256 := h b (by simp)
    have h1 : a / 4 < 64 := by omega
    have h2 : a % 4 * 16 + b / 16 < 64 := by omega
    have h3 : b % 16 * 4 < 64 := by omega
    have hne : b64char (b % 16 * 4) ≠ 61 := b64char_ne_61 _ h3
    simp only [b64encode, b64decode, b64decodeLast, if_neg hne,
      b64val_b64char _ h1, b64val_b64char _ h2, b64val_b64char _ h3]
    have : b % 16 * 4 % 4 = 0 := by omega
    simp [this, Option.bind]
    constructor <;> omega
  | case4 a b c rest ih =>
    intro h
    have ha : a < 256 := h a (by simp)
    have hb : b < 256 := h b (by simp)
    have hc : c < 256 := h c (by simp)
    have h1 : a / 4 < 64 := by omega
    have h2 : a % 4 * 16 + b / 16 < 64 := by omega
    have h3 : b % 16 * 4 + c / 64 < 64 := by omega
    have h4 : c % 64 < 64 := by omega
    have hrest : ∀ x ∈ rest, x < 256 := by
      intro x hx; exact h x (by simp [hx])
    have ihr := ih hrest
    match hr : rest with
    | [] =>
      have hne3 : b64char (b % 16 * 4 + c / 64) ≠ 61 := b64char_ne_61 _ h3
      have hne4 : b64char (c % 64) ≠ 61 := b64char_ne_61 _ h4
      simp only [b64encode, b64decode, b64decodeLast, if_neg hne3, if_neg hne4,
        b64val_b64char _ h1, b64val_b64char _ h2, b64val_b64char _ h3,
        b64val_b64char _ h4]
      simp [Option.bind]
      refine ⟨by omega, by omega, by omega⟩
    | e :: rest2 =>
      have hnn := b64encode_ne_nil e rest2
      simp only [b64encode]
      match henc : b64encode (e :: rest2) with
      | [] => exact absurd henc hnn
      | p :: q :: r :: s :: tail =>
        rw [henc] at ihr
        simp only [b64decode,
          b64val_b64char _ h1, b64val_b64char _ h2, b64val_b64char _ h3,
          b64val_b64char _ h4]
        simp only [Option.bind_eq_bind, Option.some_bind]
        rw [ihr]
        simp [Option.bind]
        refine ⟨by omega, by omega, by omega⟩
      | [p] => rw [henc] at ihr; simp [b64decode] at ihr
      | [p, q] => rw [henc] at ihr; simp [b64decode] at ihr
      | [p, q, r] => rw [henc] at ihr; simp [b64decode] at ihr

end Base64

section HexUuid

theorem hexVal_hexDigitByte : ∀ n < 16, hexVal (hexDigitByte n) = some n := by decide

theorem hexN_mem_lt : ∀ (w v : Nat), ∀ b ∈ hexN w v, b < 256 := by
  intro w
  induction w with
  | zero => intro v b hb; simp [hexN] at hb
  | succ w ih =>
    intro v b hb
    simp only [hexN, List.mem_cons] at hb
    rcases hb with h | h
    · have : v / 16 ^ w % 16 < 16 := Nat.mod_lt _ (by omega)
      subst h; unfold hexDigitByte; split <;> omega
    · exact ih v b h

theorem parseHexN_hexN (w : Nat) : ∀ (v : Nat) (rest : Bytes),
    parseHexN w (hexN w v ++ rest) = some (v % 16 ^ w, rest) := by
  induction w with
  | zero => intro v rest; simp [hexN, parseHexN, Nat.mod_one]
  | succ w ih =>
    intro v rest
    have hd : v / 16 ^ w % 16 < 16 := Nat.mod_lt _ (by omega)
    simp only [hexN, List.cons_append, parseHexN, hexVal_hexDigitByte _ hd,
      Option.bind_eq_bind, Option.some_bind, List.append_eq]
    rw [ih v rest]
    simp only [Option.some_bind]
    have : v / 16 ^ w % 16 * 16 ^ w + v % 16 ^ w = v % 16 ^ (w + 1) := by
      rw [pow_succ, Nat.mod_mul]; ring
    simp [this]

theorem uuidBytes_mem_lt (u : Uuid) : ∀ b ∈ uuidBytes u, b < 256 := by
  intro b hb
  simp only [uuidBytes, List.mem_append, List.mem_singleton] at hb
  rcases hb with ((((((((h | h) | h) | h) | h) | h) | h) | h) | h) <;>
    first
      | exact hexN_mem_lt _ _ b h
      | omega

theorem parseUuid_uuidBytes (u : Uuid) (h : u.val < 2 ^ 128) (rest : Bytes) :
    parseUuid (uuidBytes u ++ rest) = some (u, rest) := by
  obtain ⟨v⟩ := u
  have e3 : v / 16 ^ 12 = 16 ^ 4 * (v / 16 ^ 16) + v / 16 ^ 12 % 16 ^ 4 := by
    conv_lhs => rw [← Nat.div_add_mod (v / 16 ^ 12) (16 ^ 4)]
    rw [Nat.div_div_eq_div_mul]
    norm_num
  have e4 : v / 16 ^ 16 = 16 ^ 4 * (v / 16 ^ 20) + v / 16 ^ 16 % 16 ^ 4 := by
    conv_lhs => rw [← Nat.div_add_mod (v / 16 ^ 16) (16 ^ 4)]
    rw [Nat.div_div_eq_div_mul]
    norm_num
  have e5 : v / 16 ^ 20 = 16 ^ 4 * (v / 16 ^ 24) + v / 16 ^ 20 % 16 ^ 4 := by
    conv_lhs => rw [← Nat.div_add_mod (v / 16 ^ 20) (16 ^ 4)]
    rw [Nat.div_div_eq_div_mul]
    norm_num
  have e0 : v = 16 ^ 12 * (v / 16 ^ 12) + v % 16 ^ 12 := (Nat.div_add_mod v (16 ^ 12)).symm
  have b0 : v % 16 ^ 12 < 16 ^ 12 := Nat.mod_lt _ (by norm_num)
  have b3 : v / 16 ^ 12 % 16 ^ 4 < 16 ^ 4 := Nat.mod_lt _ (by norm_num)
  have b4 : v / 16 ^ 16 % 16 ^ 4 < 16 ^ 4 := Nat.mod_lt _ (by norm_num)
  have b5 : v / 16 ^ 20 % 16 ^ 4 < 16 ^ 4 := Nat.mod_lt _ (by norm_num)
  have hv24 : v / 16 ^ 24 < 16 ^ 8 := by
    apply Nat.div_lt_of_lt_mul
    calc v < 2 ^ 128 := h
    _ = 16 ^ 24 * 16 ^ 8 := by norm_num
  have m24 : v / 16 ^ 24 % 16 ^ 8 = v / 16 ^ 24 := Nat.mod_eq_of_lt hv24
  simp only [uuidBytes, parseUuid, List.append_assoc, List.cons_append,
    List.singleton_append, List.nil_append, List.append_eq, parseHexN_hexN,
    Option.bind_eq_bind, Option.some_bind, m24, Option.some.injEq,
    Prod.mk.injEq, Uuid.mk.injEq, and_true]
  norm_num at e3 e4 e5 e0 b0 b3 b4 b5 ⊢
  omega

end HexUuid

section Json

/-- serde_json escaping of a single byte of a string value: `"` and `\`
get a backslash escape, the control bytes 0x08..0x0d get their short
escapes, other control bytes get `\u00xx`, everything else (including the
bytes of multi-byte UTF-8 sequences) passes through unchanged. -/
def jsonEscapeByte (b : Nat) : Bytes :=
  if b = 34 then [92, 34]
  else if b = 92 then [92, 92]
  else if b = 8 then [92, 98]
  else if b = 9 then [92, 116]
  else if b = 10 then [92, 110]
  else if b = 12 then [92, 102]
  else if b = 13 then [92, 114]
  else if b < 32 then [92, 117, 48, 48, hexDigitByte (b / 16), hexDigitByte (b % 16)]
  else [b]

/-- serde_json escaping of a whole string value. -/
def jsonEscape : Bytes → Bytes
  | [] => []
  | b :: s => jsonEscapeByte b ++ jsonEscape s

/-- Single-character JSON escapes: the byte after a backslash and the byte
it stands for. -/
def escByte (e : Nat) : Option Nat :=
  if e = 34 then some 34
  else if e = 92 then some 92
  else if e = 47 then some 47
  else if e = 98 then some 8
  else if e = 116 then some 9
  else if e = 110 then some 10
  else if e = 102 then some 12
  else if e = 114 then some 13
  else none

mutual

/-- Parse the remainder of a JSON string literal (after its opening quote)
up to and including the closing quote, undoing the escapes of
`jsonEscapeByte`: returns the unescaped bytes and the input after the
closing quote. -/
def parseJString : Bytes → Option (Bytes × Bytes)
  | [] => none
  | b :: rest =>
    if b = 34 then some ([], rest)
    else if b = 92 then parseJEsc rest
    else if b < 32 then none
    else (fun p => (b :: p.1, p.2)) <$> parseJString rest
termination_by s => s.length

/-- Parse what follows a backslash inside a JSON string literal. -/
def parseJEsc : Bytes → Option (Bytes × Bytes)
  | [] => none
  | e :: r =>
    if e = 117 then parseJU r
    else
      match escByte e with
      | some c => (fun p => (c :: p.1, p.2)) <$> parseJString r
      | none => none
termination_by s => s.length

/-- Parse the four hex digits of a `\u00xx` escape (the model keeps the
ASCII-range escapes serde emits). -/
def parseJU : Bytes → Option (Bytes × Bytes)
  | h1 :: h2 :: h3 :: h4 :: r =>
    match hexVal h1, hexVal h2, hexVal h3, hexVal h4 with
    | some d1, some d2, some d3, some d4 =>
      let c := ((d1 * 16 + d2) * 16 + d3) * 16 + d4
      if c < 128 then (fun p => (c :: p.1, p.2)) <$> parseJString r else none
    | _, _, _, _ => none
  | _ => none
termination_by s => s.length

end

/-- Helper: parsing a `\u00xx` escape yields the control byte. -/
theorem parseJString_u (b : Nat) (hb : b < 32) (t : Bytes) :
    parseJString (92 :: 117 :: 48 :: 48 :: hexDigitByte (b / 16) ::
        hexDigitByte (b % 16) :: t) =
      (fun p => (b :: p.1, p.2)) <$> parseJString t := by
  have hd1 : b / 16 < 16 := by omega
  have hd2 : b % 16 < 16 := by omega
  simp only [parseJString, parseJEsc, parseJU,
    hexVal_hexDigitByte _ hd1, hexVal_hexDigitByte _ hd2,
    show hexVal 48 = some 0 from rfl, show ((92 : Nat) = 34) = False by simp,
    show ((92 : Nat) = 92) = True by simp,
    show ((117 : Nat) = 117) = True by simp, if_false, if_true]
  have hcb : ((0 * 16 + 0) * 16 + b / 16) * 16 + b % 16 = b := by omega
  rw [hcb, if_pos (by omega : b < 128)]

theorem parseJString_jsonEscape : ∀ (s : Bytes), (∀ x ∈ s, x < 256) →
    ∀ (rest : Bytes), parseJString (jsonEscape s ++ 34 :: rest) = some (s, rest) := by
  intro s
  induction s with
  | nil => intro _ rest; simp [jsonEscape, parseJString]
  | cons b s ih =>
    intro h rest
    have hb : b < 256 := h b (by simp)
    have hs : ∀ x ∈ s, x < 256 := fun x hx => h x (by simp [hx])
    have ihr := ih hs rest
    simp only [jsonEscape, List.append_assoc]
    by_cases h34 : b = 34
    · subst h34; simp [jsonEscapeByte, parseJString, parseJEsc, escByte, ihr]
    by_cases h92 : b = 92
    · subst h92; simp [jsonEscapeByte, parseJString, parseJEsc, escByte, ihr]
    by_cases h8 : b = 8
    · subst h8; simp [jsonEscapeByte, parseJString, parseJEsc, escByte, ihr]
    by_cases h9 : b = 9
    · subst h9; simp [jsonEscapeByte, parseJString, parseJEsc, escByte, ihr]
    by_cases h10 : b = 10
    · subst h10; simp [jsonEscapeByte, parseJString, parseJEsc, escByte, ihr]
    by_cases h12 : b = 12
    · subst h12; simp [jsonEscapeByte, parseJString, parseJEsc, escByte, ihr]
    by_cases h13 : b = 13
    · subst h13; simp [jsonEscapeByte, parseJString, parseJEsc, escByte, ihr]
    by_cases hlt : b < 32
    · simp only [jsonEscapeByte, if_neg h34, if_neg h92, if_neg h8, if_neg h9,
        if_neg h10, if_neg h12, if_neg h13, if_pos hlt, List.cons_append,
        List.nil_append]
      rw [parseJString_u b hlt, ihr]
      rfl
    · simp only [jsonEscapeByte, if_neg h34, if_neg h92, if_neg h8, if_neg h9,
        if_neg h10, if_neg h12, if_neg h13, if_neg hlt, List.cons_append,
        List.nil_append]
      simp only [parseJString, if_neg h34, if_neg h92, if_neg hlt, ihr]
      rfl

/-- `common::key::KeyClaims` (src/common/src/key.rs). -/
structure KeyClaims where
  user_id : Uuid
  plan_id : Bytes
  key_id : Uuid
  secret : Bytes
deriving DecidableEq, Repr

/-- `serde_json::to_string` on a `KeyClaims` value: the canonical
serialization, fields in declaration order, string fields escaped. -/
def jsonRenderClaims (c : KeyClaims) : Bytes :=
  str2bytes "\x7b\"user_id\":\"" ++ uuidBytes c.user_id ++
  str2bytes "\",\"plan_id\":\"" ++ jsonEscape c.plan_id ++
  str2bytes "\",\"key_id\":\"" ++ uuidBytes c.key_id ++
  str2bytes "\",\"secret\":\"" ++ jsonEscape c.secret ++
  str2bytes "\"\x7d"

/-- Rust `str::strip_prefix`, byte-wise: also used to match the literal
parts of the canonical claims JSON. -/
def stripLit : Bytes → Bytes → Option Bytes
  | [], rest => some rest
  | _ :: _, [] => none
  | p :: ps, b :: bs => if b = p then stripLit ps bs else none

/-- `serde_json::from_slice::<KeyClaims>`, modelled on the canonical shape
emitted by `jsonRenderClaims` (serde additionally tolerates whitespace and
field reordering, a leniency inside the claims shape that none of the
verified claims depends on). -/
def jsonParseClaims (s : Bytes) : Option KeyClaims := do
  let r ← stripLit (str2bytes "\x7b\"user_id\":\"") s
  let (u, r) ← parseUuid r
  let r ← stripLit (str2bytes "\",\"plan_id\":\"") r
  let (p, r) ← parseJString r
  let r ← stripLit (str2bytes ",\"key_id\":\"") r
  let (k, r) ← parseUuid r
  let r ← stripLit (str2bytes "\",\"secret\":\"") r
  let (sec, r) ← parseJString r
  if r = str2bytes "\x7d" then pure ⟨u, p, k, sec⟩ else none

/-- `KeyClaims::to_key`: `"sk_" + base64(json(self))`. -/
def KeyClaims.to_key (c : KeyClaims) : Bytes :=
  str2bytes "sk_" ++ b64encode (jsonRenderClaims c)

/-- `KeyClaims::from_key`: strip the `sk_` prefix, base64-decode, parse the
JSON; each failure is a `BadRequest`. -/
def KeyClaims.from_key (k : Bytes) : Except AppError KeyClaims :=
  match stripLit (str2bytes "sk_") k with
  | none => .error (.BadRequest (str2bytes "Missing prefix sk_"))
  | some enc =>
    match b64decode enc with
    | none => .error (.BadRequest (str2bytes "Base64 decode error"))
    | some bytes =>
      match jsonParseClaims bytes with
      | none => .error (.BadRequest (str2bytes "JSON parse error"))
      | some c => .ok c

theorem stripLit_append : ∀ (p rest : Bytes), stripLit p (p ++ rest) = some rest := by
  intro p
  induction p with
  | nil => intro rest; simp [stripLit]
  | cons x xs ih => intro rest; simp [stripLit, ih]

theorem jsonEscapeByte_mem_lt : ∀ b < 256, ∀ x ∈ jsonEscapeByte b, x < 256 := by
  decide

theorem jsonEscape_mem_lt : ∀ (s : Bytes), (∀ x ∈ s, x < 256) →
    ∀ b ∈ jsonEscape s, b < 256 := by
  intro s
  induction s with
  | nil => intro _ b hb; simp [jsonEscape] at hb
  | cons x xs ih =>
    intro h b hb
    simp only [jsonEscape, List.mem_append] at hb
    rcases hb with hb | hb
    · exact jsonEscapeByte_mem_lt x (h x (by simp)) b hb
    · exact ih (fun y hy => h y (by simp [hy])) b hb

theorem jsonRenderClaims_mem_lt (c : KeyClaims)
    (hp : ∀ x ∈ c.plan_id, x < 256) (hs : ∀ x ∈ c.secret, x < 256) :
    ∀ b ∈ jsonRenderClaims c, b < 256 := by
  intro b hb
  simp only [jsonRenderClaims, List.mem_append] at hb
  rcases hb with ((((((((hb | hb) | hb) | hb) | hb) | hb) | hb) | hb) | hb)
  · exact (by decide : ∀ y ∈ str2bytes "\x7b\"user_id\":\"", y < 256) b hb
  · exact uuidBytes_mem_lt _ b hb
  · exact (by decide : ∀ y ∈ str2bytes "\",\"plan_id\":\"", y < 256) b hb
  · exact jsonEscape_mem_lt _ hp b hb
  · exact (by decide : ∀ y ∈ str2bytes "\",\"key_id\":\"", y < 256) b hb
  · exact uuidBytes_mem_lt _ b hb
  · exact (by decide : ∀ y ∈ str2bytes "\",\"secret\":\"", y < 256) b hb
  · exact jsonEscape_mem_lt _ hs b hb
  · exact (by decide : ∀ y ∈ str2bytes "\"\x7d", y < 256) b hb

theorem jsonParseClaims_render (c : KeyClaims)
    (hp : ∀ x ∈ c.plan_id, x < 256) (hsec : ∀ x ∈ c.secret, x < 256)
    (hu : c.user_id.val < 2 ^ 128) (hk : c.key_id.val < 2 ^ 128) :
    jsonParseClaims (jsonRenderClaims c) = some c := by
  obtain ⟨u, p, k, sec⟩ := c
  unfold jsonParseClaims jsonRenderClaims
  simp only [List.append_assoc]
  rw [stripLit_append]
  simp only [Option.bind_eq_bind, Option.some_bind]
  rw [parseUuid_uuidBytes _ hu]
  simp only [Option.some_bind]
  rw [stripLit_append]
  simp only [Option.some_bind]
  rw [show (str2bytes "\",\"key_id\":\"" : Bytes) =
        34 :: str2bytes ",\"key_id\":\"" from rfl]
  simp only [List.cons_append]
  rw [parseJString_jsonEscape p hp]
  simp only [Option.some_bind]
  rw [stripLit_append]
  simp only [Option.some_bind]
  rw [parseUuid_uuidBytes _ hk]
  simp only [Option.some_bind]
  rw [stripLit_append]
  simp only [Option.some_bind]
  rw [show (str2bytes "\"\x7d" : Bytes) = 34 :: str2bytes "\x7d" from rfl]
  rw [parseJString_jsonEscape sec hsec]
  simp only [Option.some_bind]
  simp

theorem from_key_to_key (c : KeyClaims)
    (hp : ∀ x ∈ c.plan_id, x < 256) (hsec : ∀ x ∈ c.secret, x < 256)
    (hu : c.user_id.val < 2 ^ 128) (hk : c.key_id.val < 2 ^ 128) :
    KeyClaims.from_key (KeyClaims.to_key c) = .ok c := by
  unfold KeyClaims.to_key KeyClaims.from_key
  rw [stripLit_append]
  simp only [b64decode_b64encode _ (jsonRenderClaims_mem_lt c hp hsec),
    jsonParseClaims_render c hp hsec hu hk]

theorem from_key_error_shape (k : Bytes) (e : AppError)
    (h : KeyClaims.from_key k = .error e) : ∃ m, e = .BadRequest m := by
  unfold KeyClaims.from_key at h
  split at h
  · exact ⟨_, (Except.error.inj h).symm⟩
  · split at h
    · exact ⟨_, (Except.error.inj h).symm⟩
    · split at h
      · exact ⟨_, (Except.error.inj h).symm⟩
      · exact absurd h (by simp)

theorem from_key_no_prefix (k : Bytes)
    (h : stripLit (str2bytes "sk_") k = none) :
    KeyClaims.from_key k = .error (.BadRequest (str2bytes "Missing prefix sk_")) := by
  unfold KeyClaims.from_key
  rw [h]

end Json

section Pipeline

deriving instance DecidableEq for Except

/-- `common::jwt::JwtClaims`. -/
structure JwtClaims where
  user_id : Uuid
  stripe_customer_id : Bytes
  exp : Nat
deriving DecidableEq, Repr

/-- The typed extension map of a request as the pipeline uses it: the
`Res<JwtClaims>` slot and the `Res<KeyClaims>` slot, each present only if
some stage inserted it. -/
structure Extensions where
  jwt : Option (Except AppError JwtClaims)
  key : Option (Except AppError KeyClaims)
deriving DecidableEq, Repr

/-- `common::key::get_key_claims_or_error`: `Ok` claims from the slot, the
slot error otherwise, and `Unauthorized` when the slot is absent. -/
def get_key_claims_or_error (ext : Extensions) : Except AppError KeyClaims :=
  match ext.key with
  | some (.ok c) => .ok c
  | some (.error e) => .error e
  | none => .error (.Unauthorized (str2bytes "No API key provided"))

/-- `common::jwt::get_jwt_claims_or_error`. -/
def get_jwt_claims_or_error (ext : Extensions) : Except AppError JwtClaims :=
  match ext.jwt with
  | some (.ok c) => .ok c
  | some (.error e) => .error e
  | none => .error (.Unauthorized (str2bytes "No authorization token provided"))

/-- `api_subs::models::sub::Metadata` (limits kept as strings, as the
billing provider forces). -/
structure Metadata where
  daily_api_limit : Bytes
  monthly_api_limit : Bytes
deriving DecidableEq, Repr

/-- `api_subs::models::sub::SubscriptionPlan`. -/
structure SubscriptionPlan where
  id : Bytes
  name : Bytes
  description : Bytes
  price : Option Int
  currency : Option Bytes
  interval : Option Bytes
  metadata : Option Metadata
deriving DecidableEq, Repr

/-- Digit loop of Rust `str::parse::<u64>`, with the overflow check. -/
def parseU64Digits : Bytes → Nat → Option Nat
  | [], acc => some acc
  | b :: bs, acc =>
    if 48 ≤ b ∧ b ≤ 57 then
      let acc2 := acc * 10 + (b - 48)
      if acc2 < 2 ^ 64 then parseU64Digits bs acc2 else none
    else none

/-- Rust `str::parse::<u64>`: optional leading `+`, at least one digit,
nothing else, no overflow. -/
def parseU64 (s : Bytes) : Option Nat :=
  match s with
  | [] => none
  | b :: rest =>
    if b = 43 then (if rest = [] then none else parseU64Digits rest 0)
    else parseU64Digits s 0

/-- Assoc-list read of a Redis counter; a missing key counts as 0, which
is the value INCR starts from. -/
def rget : List (Bytes × Int) → Bytes → Int
  | [], _ => 0
  | (k2, v) :: rest, k => if k2 = k then v else rget rest k

/-- Assoc-list write of a Redis counter. -/
def rset : List (Bytes × Int) → Bytes → Int → List (Bytes × Int)
  | [], k, v => [(k, v)]
  | (k2, v2) :: rest, k, v =>
    if k2 = k then (k, v) :: rest else (k2, v2) :: rset rest k v

/-- The shared counter store: counter values plus the log of `EXPIRE`
commands that were issued (key, seconds). -/
structure RedisState where
  counters : List (Bytes × Int)
  expireLog : List (Bytes × Int)
deriving DecidableEq, Repr

/-- Redis `INCRBY` (also used with -1 for `DECR`): returns the new value. -/
def rincr (st : RedisState) (k : Bytes) (amount : Int) : Int × RedisState :=
  let v := rget st.counters k + amount
  (v, { st with counters := rset st.counters k v })

/-- Redis `EXPIRE`: recorded in the log; the model does not advance time. -/
def rexpire (st : RedisState) (k : Bytes) (secs : Int) : RedisState :=
  { st with expireLog := st.expireLog ++ [(k, secs)] }

/-- A UTC instant: days since an epoch, whole seconds within the day
(0..86399) and nanoseconds within the second (0..999999999), the
invariants carried as theorem hypotheses. -/
structure UtcInstant where
  day : Int
  sod : Nat
  nano : Nat
deriving DecidableEq, Repr

/-- `chrono::Duration::num_seconds`: whole seconds, truncated toward
zero, of a duration given in nanoseconds. -/
def durationNumSeconds (nanos : Int) : Int := Int.tdiv nanos (10 ^ 9)

/-- `calculate_seconds_until_midnight` (src/limiter/src/middleware/quota.rs):
tomorrow at 00:00:00 UTC minus now, `.num_seconds().max(0) as u64`. -/
def calculate_seconds_until_midnight (now : UtcInstant) : Nat :=
  (max (durationNumSeconds ((now.day + 1) * 86400 * 10 ^ 9 -
    (now.day * 86400 * 10 ^ 9 + now.sod * 10 ^ 9 + now.nano))) 0).toNat

/-- What a middleware returns for one request: the downstream response
forwarded, or an error response built from an `AppError`
(`req.error_response(...)` / `req.into_response(...)`). -/
inductive Outcome (A : Type) where
  | forwarded (resp : A)
  | errorResponse (e : AppError)
deriving DecidableEq, Repr

/-- Plan lookup in the `HashMap<String, Arc<SubscriptionPlan>>`. -/
def plansFind : List (Bytes × SubscriptionPlan) → Bytes → Option SubscriptionPlan
  | [], _ => none
  | (k, p) :: rest, id => if k = id then some p else plansFind rest id

/-- The daily counter key `quota:{user_id}:daily:{date}`. -/
def dailyKey (u : Uuid) (dateStr : Bytes) : Bytes :=
  str2bytes "quota:" ++ uuidBytes u ++ str2bytes ":daily:" ++ dateStr

/-- The monthly counter key `quota:{user_id}:monthly:{month}`. -/
def monthlyKey (u : Uuid) (monthStr : Bytes) : Bytes :=
  str2bytes "quota:" ++ uuidBytes u ++ str2bytes ":monthly:" ++ monthStr

/-- The 429 message `Daily limit exceeded for key {user}. Count: {count},
Limit: {limit}`. -/
def tooManyMsg (u : Uuid) (count : Int) (limit : Nat) : Bytes :=
  str2bytes "Daily limit exceeded for key " ++ uuidBytes u ++
  str2bytes ". Count: " ++ intRepr count ++ str2bytes ", Limit: " ++ natRepr limit

/-- `QuotaRateLimitingMiddleware::call` (src/limiter/src/middleware/quota.rs)
for one request.  `dateStr`/`monthStr` are the `%Y-%m-%d` / `%Y-%m`
renderings of `now` (the rendering itself is injective per day/month and
passed in already formatted).  `faults` is a per-call-site failure oracle
for the store: 0 = get connection, 1 = INCR daily, 2 = EXPIRE daily,
3 = DECR daily, 4 = INCR monthly; a failed EXPIRE/DECR/monthly-INCR is
ignored by the source (`let _ = ...`), a failed connection or daily INCR
produces an Internal error response.  The monthly-limit block of the
source is commented out: the monthly INCR result is never inspected. -/
def quotaCall {A : Type} (plans : List (Bytes × SubscriptionPlan))
    (ext : Extensions) (now : UtcInstant) (dateStr monthStr : Bytes)
    (faults : Nat → Bool) (st : RedisState) (downstream : A) :
    Outcome A × RedisState :=
  match (get_key_claims_or_error ext).toOption with
  | none => (.forwarded downstream, st)
  | some kc =>
    match plansFind plans kc.plan_id with
    | none =>
      (.errorResponse (.Internal (str2bytes "Plan ID not found in configured plans.")), st)
    | some plan =>
      match plan.metadata with
      | none => (.forwarded downstream, st)
      | some meta =>
        match parseU64 meta.daily_api_limit, parseU64 meta.monthly_api_limit with
        | some daily_limit, some monthly_limit =>
          if daily_limit = 0 ∨ monthly_limit = 0 then (.forwarded downstream, st)
          else if faults 0 then
            (.errorResponse (.Internal (str2bytes "Failed to get Redis connection")), st)
          else
            let dk := dailyKey kc.user_id dateStr
            let mk := monthlyKey kc.user_id monthStr
            let secs := calculate_seconds_until_midnight now
            if faults 1 then
              (.errorResponse (.Internal (str2bytes "Redis error incrementing daily count")), st)
            else
              let step1 := rincr st dk 1
              let count := step1.1
              let st2 := if count = 1 ∧ ¬ faults 2 then rexpire step1.2 dk secs else step1.2
              if count > (daily_limit : Int) then
                let st3 := if faults 3 then st2 else (rincr st2 dk (-1)).2
                (.errorResponse (.TooManyRequests (tooManyMsg kc.user_id count daily_limit)), st3)
              else
                let st3 := if faults 4 then st2 else (rincr st2 mk 1).2
                (.forwarded downstream, st3)
        | _, _ =>
          (.errorResponse (.Internal (str2bytes "Failed to parse limits for plan ID")), st)

/-- Sequential requests through the quota middleware: outcomes in order
plus the final store. -/
def quotaRun {A : Type} (plans : List (Bytes × SubscriptionPlan))
    (ext : Extensions) (now : UtcInstant) (dateStr monthStr : Bytes)
    (faults : Nat → Bool) (downstream : A) :
    Nat → RedisState → List (Outcome A) × RedisState
  | 0, st => ([], st)
  | k + 1, st =>
    let acc := quotaRun plans ext now dateStr monthStr faults downstream k st
    let step := quotaCall plans ext now dateStr monthStr faults acc.2 downstream
    (acc.1 ++ [step.1], step.2)

/-- Extract the token of an `Authorization: Bearer <token>` header. -/
def bearerToken (authHeader : Option Bytes) : Option Bytes :=
  match authHeader with
  | none => none
  | some h => stripLit (str2bytes "Bearer ") h

/-- `ExtractionMiddlewareService::call`
(src/extractor/src/middleware/extractor.rs): validates a bearer token with
the JWT collaborator and stores the result; decodes an `X-API-KEY` header
with `KeyClaims::from_key` — no store lookup, no hash check — and stores
the result; then always forwards.  The returned value is the extension map
the downstream stages observe. -/
def extractorCall (validate_jwt : Bytes → Except AppError JwtClaims)
    (authHeader apiKeyHeader : Option Bytes) (ext : Extensions) : Extensions :=
  let ext1 := match bearerToken authHeader with
    | some tok => { ext with jwt := some (validate_jwt tok) }
    | none => ext
  match apiKeyHeader with
  | some k => { ext1 with key := some (KeyClaims.from_key k) }
  | none => ext1

/-- `db::models::key::ApiKey`. -/
structure ApiKey where
  id : Uuid
  user_id : Uuid
  key_encrypted : Bytes
  name : Bytes
  status : Bytes
  created_at : Int
deriving DecidableEq, Repr

/-- `KeyMiddlewareService::call` (src/api_keys/src/middleware/key.rs):
claims from the extensions (else their error response); key record by id
from the store collaborator (a lookup failure answers `BadRequest
"Invalid key"`); argon2 verification of the embedded secret against the
stored hash (a mismatch answers the same `BadRequest`); otherwise forward.
The record's `status` column is never consulted. -/
def keyCall {A : Type} (get_key_by_id : Uuid → Except AppError ApiKey)
    (argon2_verify : Bytes → Bytes → Bool)
    (ext : Extensions) (downstream : A) : Outcome A :=
  match get_key_claims_or_error ext with
  | .error e => .errorResponse e
  | .ok kc =>
    match get_key_by_id kc.key_id with
    | .ok key_record =>
      if ¬ argon2_verify kc.secret key_record.key_encrypted then
        .errorResponse (.BadRequest (str2bytes "Invalid key"))
      else .forwarded downstream
    | .error _ => .errorResponse (.BadRequest (str2bytes "Invalid key"))

/-- What the auth middleware returns: the downstream response, or a 401
built directly with `HttpResponse::Unauthorized()`. -/
inductive AuthOutcome (A : Type) where
  | forwarded (resp : A)
  | unauthorized (body : Bytes)
deriving DecidableEq, Repr

/-- `AuthMiddlewareService::call` (src/src/auth/middleware/auth.rs): paths
whose text does not contain the hard-coded `"/api/secured"` are forwarded
before any header is read; otherwise the bearer token is validated by the
external auth-client collaborator, 401 on a missing or invalid token. -/
def authCall {A C : Type} (validate_token : Bytes → Option C)
    (path : Bytes) (authHeader : Option Bytes) (downstream : A) : AuthOutcome A :=
  if ¬ (str2bytes "/api/secured" <:+: path) then .forwarded downstream
  else
    match bearerToken authHeader with
    | some token =>
      match validate_token token with
      | some _ => .forwarded downstream
      | none => .unauthorized (str2bytes "Invalid token")
    | none => .unauthorized (str2bytes "No authorization token provided")

end Pipeline

section Logger

/-- `serde_json::Value`. -/
inductive Json where
  | null
  | bool (b : Bool)
  | num (n : Int)
  | str (s : Bytes)
  | arr (xs : List Json)
  | obj (fields : List (Bytes × Json))

/-- `db::models::log::Log` as the logger middleware fills it (the audit
record; `id` is nil, the database generates it). -/
structure Log where
  id : Uuid
  timestamp : Int
  method : Bytes
  path : Bytes
  status_code : Nat
  user_id : Option Uuid
  params : Option Json
  key_id : Option Uuid
  request_body : Option Json
  response_body : Option Json
  ip_address : Bytes
  user_agent : Bytes

/-- A handler / client response: status, header multimap, body bytes. -/
structure HttpResponseModel where
  status : Nat
  headers : List (Bytes × Bytes)
  body : Bytes
deriving DecidableEq, Repr

/-- actix `HttpResponseBuilder::insert_header`: replaces every header of
the same name, then appends the new pair. -/
def insertHeader (hs : List (Bytes × Bytes)) (kv : Bytes × Bytes) :
    List (Bytes × Bytes) :=
  hs.filter (fun p => p.1 ≠ kv.1) ++ [kv]

/-- Split a byte string on a separator byte (Rust `str::split`). -/
def splitOnByte (sep : Nat) : Bytes → List Bytes
  | [] => [[]]
  | b :: rest =>
    match splitOnByte sep rest with
    | cur :: done => if b = sep then [] :: cur :: done else (b :: cur) :: done
    | [] => [[b]]

/-- Split a query pair at the first `=` (Rust `str::find` + slicing). -/
def splitAtEq : Bytes → Option (Bytes × Bytes)
  | [] => none
  | b :: rest =>
    if b = 61 then some ([], rest)
    else
      match splitAtEq rest with
      | some p => some (b :: p.1, p.2)
      | none => none

/-- One query pair as a map entry: `k=v` as `(k, json!(v))`, a pair
without `=` as `(pair, json!(true))`. -/
def paramEntry (seg : Bytes) : Bytes × Json :=
  match splitAtEq seg with
  | some p => (p.1, Json.str p.2)
  | none => (seg, Json.bool true)

/-- HashMap insert: an existing key is overwritten. -/
def assocInsert (l : List (Bytes × Json)) (kv : Bytes × Json) :
    List (Bytes × Json) :=
  l.filter (fun p => p.1 ≠ kv.1) ++ [kv]

/-- The `params` JSON of the logger: `json!({})` for an empty query
string, otherwise the map built from the `&`-separated pairs. -/
def paramsJson (q : Bytes) : Json :=
  if q = [] then Json.obj []
  else Json.obj (((splitOnByte 38 q).map paramEntry).foldl assocInsert [])

/-- `extract_body`: drain every chunk of the payload into one buffer. -/
def extract_body (chunks : List Bytes) : Bytes := chunks.foldl (· ++ ·) []

/-- The request-side metadata the logger reads before draining the body. -/
structure RequestMeta where
  method : Bytes
  path : Bytes
  query_string : Bytes
  ip_address : Bytes
  user_agent : Bytes
deriving DecidableEq, Repr

/-- `LoggerMiddlewareService::call` (src/logger/src/middleware/logger.rs).
`parse_json` is the `serde_json::from_slice::<Value>` collaborator,
`insert_log` the `db::log::insert_log` collaborator, `handler` the rest of
the chain (receiving the body bytes the middleware re-wrapped as a
single-shot stream).  Returns the response sent to the client together
with the record handed to `insert_log`, or the error the middleware
propagates (`?` on the handler and `?` on the insert). -/
def loggerCall (parse_json : Bytes → Option Json)
    (insert_log : Log → Except AppError Unit)
    (handler : Bytes → Except AppError HttpResponseModel)
    (meta : RequestMeta) (ext : Extensions) (timestamp : Int)
    (chunks : List Bytes) : Except AppError (HttpResponseModel × Log) :=
  let jwt_claims := (get_jwt_claims_or_error ext).toOption
  let key_claims := (get_key_claims_or_error ext).toOption
  let user_id0 := jwt_claims.map (fun c => c.user_id)
  let key_id := key_claims.map (fun c => c.key_id)
  let user_id := match user_id0 with
    | none => key_claims.map (fun c => c.user_id)
    | some u => some u
  let body_bytes := extract_body chunks
  let request_body :=
    if body_bytes ≠ [] then (parse_json body_bytes).getD Json.null else Json.null
  match handler body_bytes with
  | .error e => .error e
  | .ok res =>
    let status := res.status
    let params_json := paramsJson meta.query_string
    let response_body := (parse_json res.body).getD Json.null
    let new_res : HttpResponseModel :=
      { status := status
        headers := res.headers.foldl insertHeader []
        body := res.body }
    let log : Log :=
      { id := ⟨0⟩
        timestamp := timestamp
        method := meta.method
        path := meta.path
        status_code := status
        user_id := user_id
        params := some params_json
        key_id := key_id
        request_body := some request_body
        response_body := some response_body
        ip_address := meta.ip_address
        user_agent := meta.user_agent }
    match insert_log log with
    | .error e => .error e
    | .ok _ => .ok (new_res, log)

end Logger

section Claims

/-- Closed form of the midnight countdown, used by C10 and its witness. -/
theorem seconds_until_midnight_eq (t : UtcInstant)
    (hs : t.sod < 86400) (hn : t.nano < 10 ^ 9) :
    calculate_seconds_until_midnight t
      = if t.nano = 0 then 86400 - t.sod else 86399 - t.sod := by
  unfold calculate_seconds_until_midnight durationNumSeconds
  have harg : (t.day + 1) * 86400 * 10 ^ 9 -
      ((t.day * 86400 * 10 ^ 9 : Int) + (t.sod : Int) * 10 ^ 9 + (t.nano : Int))
      = (86400 - (t.sod : Int)) * 10 ^ 9 - (t.nano : Int) := by ring
  rw [harg]
  by_cases h0 : t.nano = 0
  · rw [if_pos h0, h0]
    simp only [Nat.cast_zero, sub_zero]
    rw [Int.mul_tdiv_cancel _ (by norm_num)]
    rw [max_eq_left (by omega : (0 : Int) ≤ 86400 - (t.sod : Int))]
    omega
  · rw [if_neg h0]
    have hpos : (0 : Int) ≤ (86400 - (t.sod : Int)) * 10 ^ 9 - (t.nano : Int) := by
      have h1 : (1 : Int) ≤ 86400 - (t.sod : Int) := by omega
      nlinarith [hn]
    rw [Int.tdiv_eq_ediv hpos (by norm_num)]
    have hsplit : (86400 - (t.sod : Int)) * 10 ^ 9 - (t.nano : Int)
        = ((10 ^ 9 - (t.nano : Int)) + (86399 - (t.sod : Int)) * 10 ^ 9) := by ring
    rw [hsplit, Int.add_mul_ediv_right _ _ (by norm_num : (10 : Int) ^ 9 ≠ 0),
      Int.ediv_eq_zero_of_lt (by omega) (by omega)]
    rw [max_eq_left (by omega : (0 : Int) ≤ 0 + (86399 - (t.sod : Int)))]
    omega

/-- C10: `calculate_seconds_until_midnight(now)` is the truncated whole
number of seconds from `now` to the next UTC midnight
(`⌊(86400·10⁹ − (sod·10⁹ + nano)) / 10⁹⌋`); it lies in `[0, 86400]`, is
`86400` exactly at midnight, and is `0` strictly inside the final second
of the day — so a daily counter first created then is seeded with a
zero-second expiry. -/
theorem C10_seconds_until_midnight (t : UtcInstant)
    (hs : t.sod < 86400) (hn : t.nano < 10 ^ 9) :
    calculate_seconds_until_midnight t
        = (86400 * 10 ^ 9 - (t.sod * 10 ^ 9 + t.nano)) / 10 ^ 9 ∧
      calculate_seconds_until_midnight t ≤ 86400 ∧
      (calculate_seconds_until_midnight t = 86400 ↔ t.sod = 0 ∧ t.nano = 0) ∧
      (t.sod = 86399 ∧ 0 < t.nano → calculate_seconds_until_midnight t = 0) := by
  rw [seconds_until_midnight_eq t hs hn]
  have e9 : (10 : Nat) ^ 9 = 1000000000 := by norm_num
  rw [e9] at hn ⊢
  by_cases h0 : t.nano = 0
  · rw [if_pos h0, h0]
    have hnum : 86400 * 1000000000 - (t.sod * 1000000000 + 0)
        = (86400 - t.sod) * 1000000000 := by omega
    rw [hnum, Nat.mul_div_cancel _ (by norm_num)]
    refine ⟨rfl, by omega, by omega, by omega⟩
  · rw [if_neg h0]
    have hnum : 86400 * 1000000000 - (t.sod * 1000000000 + t.nano)
        = (1000000000 - t.nano) + (86399 - t.sod) * 1000000000 := by omega
    rw [hnum, Nat.add_mul_div_right _ _ (by norm_num : 0 < 1000000000),
      Nat.div_eq_of_lt (by omega)]
    refine ⟨by omega, by omega, by omega, by omega⟩

/-- C10 witness: one second before midnight plus one nanosecond. -/
theorem C10_witness :
    (86399 : Nat) < 86400 ∧ (1 : Nat) < 10 ^ 9 ∧
    calculate_seconds_until_midnight ⟨20000, 86399, 1⟩ = 0 :=
  ⟨by norm_num, by norm_num,
    (C10_seconds_until_midnight ⟨20000, 86399, 1⟩ (by norm_num) (by norm_num)).2.2.2
      ⟨rfl, by norm_num⟩⟩

/-- C7 counterexample: the path `/x/api/secured` does not start with the
secured prefix `/api/secured`, yet the middleware does not pass it
through: a request without credentials on it is answered 401, because the
source tests substring containment (`path.contains`), not a prefix. -/
theorem C7_counterexample :
    ¬ (str2bytes "/api/secured" <+: str2bytes "/x/api/secured") ∧
    authCall (A := Unit) (C := Unit) (fun _ => none) (str2bytes "/x/api/secured")
        none () = .unauthorized (str2bytes "No authorization token provided") := by
  constructor
  · decide
  · have hinf : (str2bytes "/api/secured") <:+: (str2bytes "/x/api/secured") := by decide
    unfold authCall
    rw [if_neg (by simpa using hinf)]
    rfl

/-- C7 (amended): the scope test is substring containment of the
hard-coded `/api/secured`, not a configured prefix match: every request
whose path does not contain that substring is forwarded to the downstream
service untouched, whatever the headers hold and whatever the credential
validator would answer, and no 401 is produced for it. -/
theorem C7_amended {A C : Type} (validate_token : Bytes → Option C)
    (path : Bytes) (authHeader : Option Bytes) (downstream : A)
    (h : ¬ (str2bytes "/api/secured" <:+: path)) :
    authCall validate_token path authHeader downstream = .forwarded downstream := by
  unfold authCall
  rw [if_pos h]

/-- C7 witness: a public path is forwarded. -/
theorem C7_witness :
    authCall (A := Unit) (C := Unit) (fun _ => none) (str2bytes "/api/subs")
        none () = .forwarded () :=
  C7_amended (fun _ => none) (str2bytes "/api/subs") none () (by decide)

/-- Concrete claims, extensions, plans and request metadata reused by the
concrete counterexamples and witnesses. -/
def exClaims : KeyClaims := ⟨⟨1⟩, str2bytes "basic", ⟨2⟩, str2bytes "s3cret"⟩

def exExt : Extensions := ⟨none, some (.ok exClaims)⟩

def exMeta : RequestMeta :=
  ⟨str2bytes "POST", str2bytes "/api/x", [], str2bytes "0.0.0.0", str2bytes "ua"⟩

def exPlan : SubscriptionPlan :=
  ⟨str2bytes "basic", str2bytes "Basic", str2bytes "basic plan", none, none, none,
   some ⟨str2bytes "5", str2bytes "5"⟩⟩

def exPlans : List (Bytes × SubscriptionPlan) := [(str2bytes "basic", exPlan)]

def exNow : UtcInstant := ⟨20000, 0, 0⟩

def exDate : Bytes := str2bytes "2024-09-27"

def exMonth : Bytes := str2bytes "2024-09"

def revokedRecord : ApiKey :=
  ⟨⟨2⟩, ⟨1⟩, str2bytes "argonhash", str2bytes "k1", str2bytes "revoked", 0⟩

/-- C5 counterexample: a syntactically valid envelope whose stored record
is `revoked` but whose secret matches is FORWARDED (no rejection at all:
the middleware never reads the status column), and a lookup failure is
answered 400 BadRequest, not 401. -/
theorem C5_counterexample :
    keyCall (A := Unit) (fun _ => .ok revokedRecord) (fun _ _ => true) exExt ()
        = .forwarded () ∧
      keyCall (A := Unit) (fun _ => .error (.Database (str2bytes "no rows")))
          (fun _ _ => true) exExt ()
        = .errorResponse (.BadRequest (str2bytes "Invalid key")) ∧
      (AppError.BadRequest (str2bytes "Invalid key")).statusOf = 400 :=
  ⟨rfl, rfl, rfl⟩

/-- C5 (amended): with valid claims attached, a key-store lookup failure
or an argon2 secret mismatch short-circuits with HTTP 400 (`BadRequest
"Invalid key"`), and a record whose hash matches the secret is forwarded
regardless of its stored status — the status column is never consulted,
so revocation does not block the request here. -/
theorem C5_amended {A : Type} (get_key_by_id : Uuid → Except AppError ApiKey)
    (verify : Bytes → Bytes → Bool) (ext : Extensions) (kc : KeyClaims)
    (downstream : A) (hext : ext.key = some (.ok kc)) :
    (∀ e, get_key_by_id kc.key_id = .error e →
      keyCall get_key_by_id verify ext downstream
          = .errorResponse (.BadRequest (str2bytes "Invalid key")) ∧
        (AppError.BadRequest (str2bytes "Invalid key")).statusOf = 400) ∧
    (∀ rec, get_key_by_id kc.key_id = .ok rec →
      (verify kc.secret rec.key_encrypted = false →
        keyCall get_key_by_id verify ext downstream
          = .errorResponse (.BadRequest (str2bytes "Invalid key"))) ∧
      (verify kc.secret rec.key_encrypted = true →
        keyCall get_key_by_id verify ext downstream = .forwarded downstream)) := by
  have hclaims : get_key_claims_or_error ext = .ok kc := by
    unfold get_key_claims_or_error
    rw [hext]
  constructor
  · intro e he
    unfold keyCall
    simp only [hclaims, he]
    exact ⟨trivial, rfl⟩
  · intro rec hrec
    constructor
    · intro hv
      unfold keyCall
      simp [hclaims, hrec, hv]
    · intro hv
      unfold keyCall
      simp [hclaims, hrec, hv]

/-- C5 witness: the 400 branch at a concrete store. -/
theorem C5_witness :
    keyCall (A := Unit) (fun _ => .error (.NotFound (str2bytes "no rows")))
        (fun _ _ => true) exExt ()
      = .errorResponse (.BadRequest (str2bytes "Invalid key")) :=
  ((C5_amended (fun _ => .error (.NotFound (str2bytes "no rows")))
      (fun _ _ => true) exExt exClaims () rfl).1
    (.NotFound (str2bytes "no rows")) rfl).1

/-- C2 counterexample: the handler answered 200 with body bytes, the
audit insert fails — and the middleware returns the insert error (the
`?` in the source propagates it), not the handler response: the
persistence failure does fail the client-visible request. -/
theorem C2_counterexample :
    loggerCall (fun _ => none)
        (fun _ => .error (.Database (str2bytes "insert failed")))
        (fun _ => .ok ⟨200, [], str2bytes "ok"⟩) exMeta ⟨none, none⟩ 0 []
      = .error (.Database (str2bytes "insert failed")) := rfl

/-- C2 (amended): when the handler has produced a response and the audit
insert fails with error `e`, the logger middleware propagates `e` as the
request outcome instead of returning the handler response; the failure is
not swallowed. -/
theorem C2_amended (parse_json : Bytes → Option Json) (e : AppError)
    (handler : Bytes → Except AppError HttpResponseModel)
    (meta : RequestMeta) (ext : Extensions) (ts : Int) (chunks : List Bytes)
    (res : HttpResponseModel)
    (hh : handler (extract_body chunks) = .ok res) :
    loggerCall parse_json (fun _ => .error e) handler meta ext ts chunks
      = .error e := by
  unfold loggerCall
  simp only [hh]

/-- C2 witness: the propagation at a concrete request. -/
theorem C2_witness :
    loggerCall (fun _ => none) (fun _ => .error (.Database (str2bytes "down")))
        (fun _ => .ok ⟨201, [], []⟩) exMeta ⟨none, none⟩ 7 [str2bytes "x"]
      = .error (.Database (str2bytes "down")) :=
  C2_amended (fun _ => none) (.Database (str2bytes "down"))
    (fun _ => .ok ⟨201, [], []⟩) exMeta ⟨none, none⟩ 7 [str2bytes "x"]
    ⟨201, [], []⟩ rfl

/-- C9: `to_key` produces `"sk_" ++ base64(json(claims))`; `from_key`
inverts it on every well-formed claims value; and every `from_key`
failure — in particular every input without the `sk_` prefix — is a
`BadRequest`. -/
theorem C9_key_roundtrip (c : KeyClaims)
    (hp : ∀ x ∈ c.plan_id, x < 256) (hsec : ∀ x ∈ c.secret, x < 256)
    (hu : c.user_id.val < 2 ^ 128) (hk : c.key_id.val < 2 ^ 128) :
    KeyClaims.to_key c = str2bytes "sk_" ++ b64encode (jsonRenderClaims c) ∧
    KeyClaims.from_key (KeyClaims.to_key c) = .ok c ∧
    (∀ s e, KeyClaims.from_key s = .error e → ∃ m, e = .BadRequest m) ∧
    (∀ s, stripLit (str2bytes "sk_") s = none →
      KeyClaims.from_key s
        = .error (.BadRequest (str2bytes "Missing prefix sk_"))) :=
  ⟨rfl, from_key_to_key c hp hsec hu hk, from_key_error_shape, from_key_no_prefix⟩

/-- C9 witness: the round trip on one concrete claims value. -/
theorem C9_witness :
    KeyClaims.from_key (KeyClaims.to_key exClaims) = .ok exClaims :=
  (C9_key_roundtrip exClaims (by decide) (by decide) (by decide) (by decide)).2.1

/-- C3 counterexample: the extractor attaches `Ok` API-key claims after
nothing more than decoding the envelope — it has no key store and no hash
to check against — and the quota stage then acts on these unverified
claims, selecting the plan and incrementing the per-user counters before
forwarding.  A decoded-but-unverified envelope IS trusted by downstream
stages. -/
theorem C3_counterexample :
    extractorCall (fun _ => .error (.JWT (str2bytes "x"))) none
        (some (KeyClaims.to_key exClaims)) ⟨none, none⟩
      = ⟨none, some (.ok exClaims)⟩ ∧
    (quotaCall exPlans ⟨none, some (.ok exClaims)⟩ exNow exDate exMonth
        (fun _ => false) ⟨[], []⟩ ()).1 = .forwarded () ∧
    (quotaCall exPlans ⟨none, some (.ok exClaims)⟩ exNow exDate exMonth
        (fun _ => false) ⟨[], []⟩ ()).2.counters
      = [(dailyKey exClaims.user_id exDate, 1),
         (monthlyKey exClaims.user_id exMonth, 1)] := by
  refine ⟨?_, ?_, ?_⟩
  · unfold extractorCall bearerToken
    simp [from_key_to_key exClaims (by decide) (by decide) (by decide) (by decide)]
  · rfl
  · rfl

/-- C3 (amended): on a fresh request, bearer-token claims are attached
`Ok` only when the JWT validator (signature and expiry check) accepted
the token; API-key claims, however, are attached as the bare result of
decoding the envelope — the secondary hash check lives only in the key
middleware, and the quota and audit stages act on the decoded claims
without it. -/
theorem C3_amended (validate_jwt : Bytes → Except AppError JwtClaims)
    (authHeader apiKeyHeader : Option Bytes) :
    (∀ jc, (extractorCall validate_jwt authHeader apiKeyHeader ⟨none, none⟩).jwt
        = some (.ok jc) →
      ∃ tok, bearerToken authHeader = some tok ∧ validate_jwt tok = .ok jc) ∧
    (∀ r, (extractorCall validate_jwt authHeader apiKeyHeader ⟨none, none⟩).key
        = some r →
      ∃ k, apiKeyHeader = some k ∧ r = KeyClaims.from_key k) := by
  constructor
  · intro jc h
    unfold extractorCall at h
    cases hb : bearerToken authHeader with
    | none =>
      rw [hb] at h
      cases ha : apiKeyHeader with
      | none => rw [ha] at h; simp at h
      | some k => rw [ha] at h; simp at h
    | some tok =>
      rw [hb] at h
      cases ha : apiKeyHeader with
      | none => rw [ha] at h; simp at h; exact ⟨tok, rfl, h⟩
      | some k => rw [ha] at h; simp at h; exact ⟨tok, rfl, h⟩
  · intro r h
    unfold extractorCall at h
    cases hb : bearerToken authHeader with
    | none =>
      rw [hb] at h
      cases ha : apiKeyHeader with
      | none => rw [ha] at h; simp at h
      | some k => rw [ha] at h; simp at h; exact ⟨k, rfl, h.symm⟩
    | some tok =>
      rw [hb] at h
      cases ha : apiKeyHeader with
      | none => rw [ha] at h; simp at h
      | some k => rw [ha] at h; simp at h; exact ⟨k, rfl, h.symm⟩

/-- C3 witness: the key slot holds exactly the decode result. -/
theorem C3_witness :
    ∃ k, (some (str2bytes "nokey") : Option Bytes) = some k ∧
      KeyClaims.from_key (str2bytes "nokey") = KeyClaims.from_key k :=
  (C3_amended (fun _ => .error (.JWT [])) none (some (str2bytes "nokey"))).2
    (KeyClaims.from_key (str2bytes "nokey")) rfl

theorem insertHeader_acc (acc : List (Bytes × Bytes)) (x : Bytes × Bytes)
    (h : ∀ p ∈ acc, p.1 ≠ x.1) : insertHeader acc x = acc ++ [x] := by
  unfold insertHeader
  congr 1
  rw [List.filter_eq_self]
  intro p hp
  simpa using h p hp

theorem foldl_insertHeader (hs : List (Bytes × Bytes)) :
    ∀ acc, (∀ p ∈ acc, ∀ q ∈ hs, p.1 ≠ q.1) → ((hs.map Prod.fst).Nodup) →
      hs.foldl insertHeader acc = acc ++ hs := by
  induction hs with
  | nil => intro acc _ _; simp
  | cons x xs ih =>
    intro acc hdisj hnodup
    simp only [List.foldl_cons]
    rw [insertHeader_acc acc x (fun p hp => hdisj p hp x (by simp))]
    rw [ih (acc ++ [x]) ?_ ?_]
    · simp
    · intro p hp q hq
      rcases List.mem_append.mp hp with h1 | h1
      · exact hdisj p h1 q (by simp [hq])
      · have hpx : p = x := by simpa using h1
        subst hpx
        intro hEq
        have hmem : q.1 ∈ xs.map Prod.fst := List.mem_map_of_mem _ hq
        rw [← hEq] at hmem
        exact (List.nodup_cons.mp (by simpa using hnodup)).1 hmem
    · exact (List.nodup_cons.mp (by simpa using hnodup)).2

/-- C6 counterexample: the handler answered with two `set-cookie`
headers; the reconstructed client response keeps only the last one,
because the source re-inserts every header with `insert_header`, which
replaces same-named headers — the client's headers differ from the
handler's. -/
theorem C6_counterexample :
    (loggerCall (fun _ => none) (fun _ => .ok ())
        (fun _ => .ok ⟨200, [(str2bytes "set-cookie", str2bytes "a"),
                             (str2bytes "set-cookie", str2bytes "b")], []⟩)
        exMeta ⟨none, none⟩ 0 []).map (fun p => p.1.headers)
      = .ok [(str2bytes "set-cookie", str2bytes "b")] ∧
    [(str2bytes "set-cookie", str2bytes "b")]
      ≠ [(str2bytes "set-cookie", str2bytes "a"),
         (str2bytes "set-cookie", str2bytes "b")] :=
  ⟨rfl, by decide⟩

/-- C6 (amended): the handler receives exactly the drained body bytes and
the client receives the handler's status and body bytes unchanged; the
headers are preserved whenever no header name repeats (a repeated name
collapses to its last value); the recorded `request_body`/`response_body`
are the JSON parse of those exact bytes with `Null` for an empty or
unparsable body, and an unparsable body never fails the request. -/
theorem C6_amended (parse_json : Bytes → Option Json)
    (handler : Bytes → Except AppError HttpResponseModel)
    (meta : RequestMeta) (ext : Extensions) (ts : Int) (chunks : List Bytes)
    (res : HttpResponseModel)
    (hh : handler (extract_body chunks) = .ok res)
    (hnodup : (res.headers.map Prod.fst).Nodup) :
    ∃ log, loggerCall parse_json (fun _ => .ok ()) handler meta ext ts chunks
        = .ok ({ status := res.status, headers := res.headers,
                 body := res.body }, log) ∧
      log.request_body = some (if extract_body chunks ≠ [] then
          (parse_json (extract_body chunks)).getD Json.null else Json.null) ∧
      log.response_body = some ((parse_json res.body).getD Json.null) ∧
      log.status_code = res.status := by
  have hhd : res.headers.foldl insertHeader [] = res.headers := by
    simpa using foldl_insertHeader res.headers [] (by simp) hnodup
  unfold loggerCall
  simp only [hh, hhd]
  exact ⟨_, rfl, rfl, rfl, rfl⟩

/-- A concrete handler response with distinct header names. -/
def exRes : HttpResponseModel :=
  ⟨200, [(str2bytes "content-type", str2bytes "application/json")], str2bytes "ok"⟩

/-- C6 witness: transparency at a concrete request. -/
theorem C6_witness :
    ∃ log, loggerCall (fun _ => none) (fun _ => .ok ())
        (fun _ => .ok exRes) exMeta ⟨none, none⟩ 0 []
        = .ok (exRes, log) ∧
      log.request_body = some Json.null ∧
      log.response_body = some Json.null ∧
      log.status_code = 200 :=
  C6_amended (fun _ => none) (fun _ => .ok exRes) exMeta ⟨none, none⟩ 0 []
    exRes rfl (by decide)

theorem rget_rset_self (l : List (Bytes × Int)) (k : Bytes) (v : Int) :
    rget (rset l k v) k = v := by
  induction l with
  | nil => simp [rset, rget]
  | cons p rest ih =>
    obtain ⟨k2, v2⟩ := p
    by_cases h : k2 = k
    · simp [rset, rget, h]
    · simp [rset, rget, h, ih]

theorem rget_rset_ne (l : List (Bytes × Int)) (k k2 : Bytes) (v : Int)
    (h : k2 ≠ k) : rget (rset l k v) k2 = rget l k2 := by
  induction l with
  | nil =>
    simp only [rset, rget]
    rw [if_neg (fun hc => h hc.symm)]
  | cons p rest ih =>
    obtain ⟨k3, v3⟩ := p
    simp only [rset]
    by_cases h3 : k3 = k
    · rw [if_pos h3]
      simp only [rget]
      rw [if_neg (fun hc => h hc.symm),
        if_neg (fun hc : k3 = k2 => h (hc ▸ h3))]
    · rw [if_neg h3]
      simp only [rget]
      by_cases h4 : k3 = k2
      · rw [if_pos h4, if_pos h4]
      · rw [if_neg h4, if_neg h4, ih]

theorem dailyKey_ne_monthlyKey (u : Uuid) (d m : Bytes) :
    dailyKey u d ≠ monthlyKey u m := by
  unfold dailyKey monthlyKey
  intro h
  simp only [List.append_assoc] at h
  have h1 := List.append_cancel_left h
  have h2 := List.append_cancel_left h1
  rw [show (str2bytes ":daily:" : Bytes) = [58, 100, 97, 105, 108, 121, 58] from rfl,
    show (str2bytes ":monthly:" : Bytes) = [58, 109, 111, 110, 116, 104, 108, 121, 58]
      from rfl] at h2
  simp at h2

/-- C8: a plan whose parsed daily or monthly limit is zero makes the
quota middleware forward every request unchanged: for any number of
sequential requests, all are forwarded and the counter store is left
exactly as it was — no counter operation is performed and no 429 is ever
produced. -/
theorem C8_zero_limits {A : Type} (plans : List (Bytes × SubscriptionPlan))
    (ext : Extensions) (now : UtcInstant) (dateStr monthStr : Bytes)
    (faults : Nat → Bool) (downstream : A) (kc : KeyClaims)
    (plan : SubscriptionPlan) (meta : Metadata) (dl ml : Nat)
    (hext : ext.key = some (.ok kc))
    (hplan : plansFind plans kc.plan_id = some plan)
    (hmeta : plan.metadata = some meta)
    (hd : parseU64 meta.daily_api_limit = some dl)
    (hm : parseU64 meta.monthly_api_limit = some ml)
    (hzero : dl = 0 ∨ ml = 0) :
    ∀ (k : Nat) (st : RedisState),
      quotaRun plans ext now dateStr monthStr faults downstream k st
        = (List.replicate k (.forwarded downstream), st) := by
  have hkc : (get_key_claims_or_error ext).toOption = some kc := by
    unfold get_key_claims_or_error
    rw [hext]
    rfl
  have hone : ∀ st, quotaCall plans ext now dateStr monthStr faults st downstream
      = (.forwarded downstream, st) := by
    intro st
    unfold quotaCall
    simp only [hkc, hplan, hmeta, hd, hm]
    rw [if_pos hzero]
  intro k
  induction k with
  | zero => intro st; rfl
  | succ i ih =>
    intro st
    unfold quotaRun
    rw [ih st]
    simp only [hone]
    rw [List.replicate_succ']

/-- A zero-daily-limit plan and claims pointing at it. -/
def exPlan0 : SubscriptionPlan :=
  ⟨str2bytes "free", str2bytes "Free", str2bytes "free plan", none, none, none,
   some ⟨str2bytes "0", str2bytes "100"⟩⟩

def exClaims0 : KeyClaims := ⟨⟨1⟩, str2bytes "free", ⟨2⟩, str2bytes "s"⟩

/-- C8 witness: three requests on a zero-limit plan, store untouched. -/
theorem C8_witness :
    quotaRun [(str2bytes "free", exPlan0)] ⟨none, some (.ok exClaims0)⟩
        exNow exDate exMonth (fun _ => false) () 3 ⟨[], []⟩
      = (List.replicate 3 (.forwarded ()), ⟨[], []⟩) :=
  C8_zero_limits [(str2bytes "free", exPlan0)] ⟨none, some (.ok exClaims0)⟩
    exNow exDate exMonth (fun _ => false) () exClaims0 exPlan0
    ⟨str2bytes "0", str2bytes "100"⟩ 0 100 rfl rfl rfl rfl rfl (Or.inl rfl)
    3 ⟨[], []⟩

/-- One metered quota call, fully reduced up to the store contents: with
claims attached, the plan found, both limits parsed and nonzero, and the
connection and the daily INCR succeeding, the call is the
increment-check-compensate block of the source. -/
theorem quotaCall_metered {A : Type} (plans : List (Bytes × SubscriptionPlan))
    (ext : Extensions) (now : UtcInstant) (dateStr monthStr : Bytes)
    (faults : Nat → Bool) (st : RedisState) (downstream : A)
    (kc : KeyClaims) (plan : SubscriptionPlan) (meta : Metadata) (dl ml : Nat)
    (hext : ext.key = some (.ok kc))
    (hplan : plansFind plans kc.plan_id = some plan)
    (hmeta : plan.metadata = some meta)
    (hd : parseU64 meta.daily_api_limit = some dl)
    (hm : parseU64 meta.monthly_api_limit = some ml)
    (hdl : 1 ≤ dl) (hml : 1 ≤ ml)
    (hf0 : faults 0 = false) (hf1 : faults 1 = false) :
    quotaCall plans ext now dateStr monthStr faults st downstream
      = (let dk := dailyKey kc.user_id dateStr
         let mk := monthlyKey kc.user_id monthStr
         let secs := calculate_seconds_until_midnight now
         let step1 := rincr st dk 1
         let count := step1.1
         let st2 := if count = 1 ∧ ¬ faults 2 then rexpire step1.2 dk secs
           else step1.2
         if count > (dl : Int) then
           let st3 := if faults 3 then st2 else (rincr st2 dk (-1)).2
           (.errorResponse (.TooManyRequests (tooManyMsg kc.user_id count dl)), st3)
         else
           let st3 := if faults 4 then st2 else (rincr st2 mk 1).2
           (.forwarded downstream, st3)) := by
  have hkc : (get_key_claims_or_error ext).toOption = some kc := by
    unfold get_key_claims_or_error
    rw [hext]
    rfl
  unfold quotaCall
  simp only [hkc, hplan, hmeta, hd, hm]
  rw [if_neg (by omega : ¬ (dl = 0 ∨ ml = 0)),
    if_neg (by simp [hf0] : ¬ faults 0 = true),
    if_neg (by simp [hf1] : ¬ faults 1 = true)]

/-- C4 counterexample: fresh store, limits 5/5, the monthly INCR is the
one store operation that fails — the request is still forwarded (no
internal error), the daily increment is kept, and the only expiry ever
issued is the daily one (the monthly seeding of the spec is dead code in
the source). -/
theorem C4_counterexample :
    (quotaCall exPlans ⟨none, some (.ok exClaims)⟩ exNow exDate exMonth
        (fun i => i == 4) ⟨[], []⟩ ()).1 = .forwarded () ∧
    (quotaCall exPlans ⟨none, some (.ok exClaims)⟩ exNow exDate exMonth
        (fun i => i == 4) ⟨[], []⟩ ()).2.expireLog
      = [(dailyKey exClaims.user_id exDate, 86400)] ∧
    (quotaCall exPlans ⟨none, some (.ok exClaims)⟩ exNow exDate exMonth
        (fun i => i == 4) ⟨[], []⟩ ()).2.counters
      = [(dailyKey exClaims.user_id exDate, 1)] :=
  ⟨rfl, rfl, rfl⟩

/-- C4 (amended): after the daily check passes, the middleware issues the
monthly INCR but ignores its outcome entirely: the request is forwarded
whether or not that increment succeeds, no expiry is ever set for the
monthly counter (the only possible expiry entry is the daily one), and
the daily increment is not rolled back. -/
theorem C4_amended {A : Type} (plans : List (Bytes × SubscriptionPlan))
    (ext : Extensions) (now : UtcInstant) (dateStr monthStr : Bytes)
    (faults : Nat → Bool) (st : RedisState) (downstream : A)
    (kc : KeyClaims) (plan : SubscriptionPlan) (meta : Metadata) (dl ml : Nat)
    (hext : ext.key = some (.ok kc))
    (hplan : plansFind plans kc.plan_id = some plan)
    (hmeta : plan.metadata = some meta)
    (hd : parseU64 meta.daily_api_limit = some dl)
    (hm : parseU64 meta.monthly_api_limit = some ml)
    (hdl : 1 ≤ dl) (hml : 1 ≤ ml)
    (hf0 : faults 0 = false) (hf1 : faults 1 = false)
    (hcount : rget st.counters (dailyKey kc.user_id dateStr) + 1 ≤ (dl : Int)) :
    (quotaCall plans ext now dateStr monthStr faults st downstream).1
        = .forwarded downstream ∧
      rget (quotaCall plans ext now dateStr monthStr faults st downstream).2.counters
          (dailyKey kc.user_id dateStr)
        = rget st.counters (dailyKey kc.user_id dateStr) + 1 ∧
      ((quotaCall plans ext now dateStr monthStr faults st downstream).2.expireLog
          = st.expireLog ∨
        (quotaCall plans ext now dateStr monthStr faults st downstream).2.expireLog
          = st.expireLog
            ++ [(dailyKey kc.user_id dateStr,
                 (calculate_seconds_until_midnight now : Int))]) := by
  rw [quotaCall_metered plans ext now dateStr monthStr faults st downstream
    kc plan meta dl ml hext hplan hmeta hd hm hdl hml hf0 hf1]
  have hne : dailyKey kc.user_id dateStr ≠ monthlyKey kc.user_id monthStr :=
    dailyKey_ne_monthlyKey kc.user_id dateStr monthStr
  simp only [rincr, rexpire]
  rw [if_neg (by omega :
    ¬ rget st.counters (dailyKey kc.user_id dateStr) + 1 > (dl : Int))]
  refine ⟨rfl, ?_, ?_⟩
  · split <;> split <;>
      simp [rget_rset_self, rget_rset_ne _ _ _ _ hne]
  · split <;> split <;> simp

/-- C4 witness: the amended behaviour at a concrete store failure. -/
theorem C4_witness :
    (quotaCall exPlans ⟨none, some (.ok exClaims)⟩ exNow exDate exMonth
        (fun i => i == 4) ⟨[], []⟩ ()).1 = .forwarded () ∧
      rget (quotaCall exPlans ⟨none, some (.ok exClaims)⟩ exNow exDate exMonth
          (fun i => i == 4) ⟨[], []⟩ ()).2.counters
          (dailyKey exClaims.user_id exDate)
        = rget (⟨[], []⟩ : RedisState).counters (dailyKey exClaims.user_id exDate) + 1 ∧
      ((quotaCall exPlans ⟨none, some (.ok exClaims)⟩ exNow exDate exMonth
          (fun i => i == 4) ⟨[], []⟩ ()).2.expireLog
          = (⟨[], []⟩ : RedisState).expireLog ∨
        (quotaCall exPlans ⟨none, some (.ok exClaims)⟩ exNow exDate exMonth
          (fun i => i == 4) ⟨[], []⟩ ()).2.expireLog
          = (⟨[], []⟩ : RedisState).expireLog
            ++ [(dailyKey exClaims.user_id exDate,
                 (calculate_seconds_until_midnight exNow : Int))]) :=
  C4_amended exPlans ⟨none, some (.ok exClaims)⟩ exNow exDate exMonth
    (fun i => i == 4) ⟨[], []⟩ () exClaims exPlan ⟨str2bytes "5", str2bytes "5"⟩
    5 5 rfl rfl rfl rfl rfl (by norm_num) (by norm_num) rfl rfl (by decide)

/-- C1: plan with daily limit `N ≥ 1` and nonzero monthly limit, fresh
counter store, no store failures, `N+1` sequential requests in the same
UTC day (all sharing the formatted date and month strings): exactly the
first `N` are forwarded downstream; the `(N+1)`th is rejected with a 429
whose message carries the observed count `N+1` and the limit `N`; and
after the rejection the stored daily counter is `N` again — the
compensating decrement undid the overshoot. -/
theorem C1_daily_quota {A : Type} (plans : List (Bytes × SubscriptionPlan))
    (ext : Extensions) (now : UtcInstant) (dateStr monthStr : Bytes)
    (downstream : A) (kc : KeyClaims) (plan : SubscriptionPlan)
    (meta : Metadata) (N M : Nat)
    (hext : ext.key = some (.ok kc))
    (hplan : plansFind plans kc.plan_id = some plan)
    (hmeta : plan.metadata = some meta)
    (hd : parseU64 meta.daily_api_limit = some N)
    (hm : parseU64 meta.monthly_api_limit = some M)
    (hN : 1 ≤ N) (hM : 1 ≤ M) :
    (quotaRun plans ext now dateStr monthStr (fun _ => false) downstream
        (N + 1) ⟨[], []⟩).1
      = List.replicate N (.forwarded downstream)
        ++ [.errorResponse (.TooManyRequests
              (tooManyMsg kc.user_id ((N : Int) + 1) N))] ∧
    (AppError.TooManyRequests (tooManyMsg kc.user_id ((N : Int) + 1) N)).statusOf
      = 429 ∧
    rget (quotaRun plans ext now dateStr monthStr (fun _ => false) downstream
        (N + 1) ⟨[], []⟩).2.counters (dailyKey kc.user_id dateStr)
      = (N : Int) := by
  have hne : dailyKey kc.user_id dateStr ≠ monthlyKey kc.user_id monthStr :=
    dailyKey_ne_monthlyKey kc.user_id dateStr monthStr
  have hstep := fun st => quotaCall_metered plans ext now dateStr monthStr
    (fun _ => false) st downstream kc plan meta N M hext hplan hmeta hd hm
    hN hM rfl rfl
  have hstep1 : quotaCall plans ext now dateStr monthStr (fun _ => false)
      ⟨[], []⟩ downstream
      = (.forwarded downstream,
         ⟨[(dailyKey kc.user_id dateStr, 1), (monthlyKey kc.user_id monthStr, 1)],
          [(dailyKey kc.user_id dateStr,
            (calculate_seconds_until_midnight now : Int))]⟩) := by
    rw [hstep ⟨[], []⟩]
    have hc1 : ¬ ((1 : Int) > (N : Int)) := by omega
    simp [rincr, rget, rset, rexpire, hne, hc1]
  have hstepj : ∀ j : Nat, 1 ≤ j → j + 1 ≤ N →
      quotaCall plans ext now dateStr monthStr (fun _ => false)
        ⟨[(dailyKey kc.user_id dateStr, (j : Int)),
          (monthlyKey kc.user_id monthStr, (j : Int))],
         [(dailyKey kc.user_id dateStr,
           (calculate_seconds_until_midnight now : Int))]⟩ downstream
      = (.forwarded downstream,
         ⟨[(dailyKey kc.user_id dateStr, (j : Int) + 1),
           (monthlyKey kc.user_id monthStr, (j : Int) + 1)],
          [(dailyKey kc.user_id dateStr,
            (calculate_seconds_until_midnight now : Int))]⟩) := by
    intro j h1 h2
    rw [hstep _]
    have hcnot1 : ¬ ((j : Int) + 1 = 1) := by omega
    have hcle : ¬ ((j : Int) + 1 > (N : Int)) := by omega
    simp [rincr, rget, rset, rexpire, hne, hcnot1, hcle]
  have hstepN : quotaCall plans ext now dateStr monthStr (fun _ => false)
      ⟨[(dailyKey kc.user_id dateStr, (N : Int)),
        (monthlyKey kc.user_id monthStr, (N : Int))],
       [(dailyKey kc.user_id dateStr,
         (calculate_seconds_until_midnight now : Int))]⟩ downstream
      = (.errorResponse (.TooManyRequests
           (tooManyMsg kc.user_id ((N : Int) + 1) N)),
         ⟨[(dailyKey kc.user_id dateStr, (N : Int)),
           (monthlyKey kc.user_id monthStr, (N : Int))],
          [(dailyKey kc.user_id dateStr,
            (calculate_seconds_until_midnight now : Int))]⟩) := by
    rw [hstep _]
    have hcnot1 : ¬ ((N : Int) + 1 = 1) := by omega
    have hcgt : ((N : Int) + 1 > (N : Int)) := by omega
    have hdec : ((N : Int) + 1 + -1) = (N : Int) := by omega
    simp [rincr, rget, rset, rexpire, hne, hcnot1, hcgt, hdec]
  have hrun : ∀ j, 1 ≤ j → j ≤ N →
      quotaRun plans ext now dateStr monthStr (fun _ => false) downstream j ⟨[], []⟩
        = (List.replicate j (.forwarded downstream),
           ⟨[(dailyKey kc.user_id dateStr, (j : Int)),
             (monthlyKey kc.user_id monthStr, (j : Int))],
            [(dailyKey kc.user_id dateStr,
              (calculate_seconds_until_midnight now : Int))]⟩) := by
    intro j
    induction j with
    | zero => intro h1 _; omega
    | succ i ih =>
      intro _ h2
      by_cases hi : i = 0
      · subst hi
        unfold quotaRun
        simp only [quotaRun, hstep1]
        norm_num
      · have ihh := ih (by omega) (by omega)
        unfold quotaRun
        rw [ihh]
        simp only []
        rw [hstepj i (by omega) (by omega)]
        simp [List.replicate_succ']
  refine ⟨?_, rfl, ?_⟩
  · unfold quotaRun
    rw [hrun N hN le_rfl]
    simp only []
    rw [hstepN]
  · unfold quotaRun
    rw [hrun N hN le_rfl]
    simp only []
    rw [hstepN]
    simp [rget]

/-- C1 witness: limit 5, six same-day requests. -/
theorem C1_witness :
    (quotaRun exPlans ⟨none, some (.ok exClaims)⟩ exNow exDate exMonth
        (fun _ => false) () 6 ⟨[], []⟩).1
      = List.replicate 5 (.forwarded ())
        ++ [.errorResponse (.TooManyRequests
              (tooManyMsg exClaims.user_id 6 5))] ∧
    (AppError.TooManyRequests (tooManyMsg exClaims.user_id 6 5)).statusOf = 429 ∧
    rget (quotaRun exPlans ⟨none, some (.ok exClaims)⟩ exNow exDate exMonth
        (fun _ => false) () 6 ⟨[], []⟩).2.counters
        (dailyKey exClaims.user_id exDate) = 5 :=
  C1_daily_quota exPlans ⟨none, some (.ok exClaims)⟩ exNow exDate exMonth ()
    exClaims exPlan ⟨str2bytes "5", str2bytes "5"⟩ 5 5 rfl rfl rfl rfl rfl
    (by norm_num) (by norm_num)

end Claims
